import Mathlib

/-!
Shallow embedding of the bepichon / UltraProxy worker proxy (repository
AliFarahani01/proxy) and proofs about its request pipeline.

JavaScript strings are modelled as `List Char` (named `JStr`), so that every
string primitive the code uses (trim, split, regex tests, case folding) is an
executable Lean function that the kernel can evaluate.  Platform effects
(network fetch, KV reads, WebSocket events, `JSON.parse`) are modelled as
explicit inputs: a probe/fetch is a function returning `Option`/`Except`
values, a KV read is an `Option`, and a parsed WebSocket message carries its
`JSON.parse` outcome.
-/

namespace Proxy

/-- JS string, modelled as a list of characters. -/
abbrev JStr := List Char

/-- JS whitespace test for the characters relevant to `String.prototype.trim`
and the `\s` class as used by the code (space, tab, newline, CR, FF, VT). -/
def isWs (c : Char) : Bool :=
  c = ' ' || c = '\t' || c = '\n' || c = '\r' || c = '\x0c' || c = '\x0b'

/-- Left trim: drop leading whitespace. -/
def ltrim (l : JStr) : JStr := l.dropWhile isWs

/-- Right trim: drop trailing whitespace (structural recursion). -/
def rtrim : JStr → JStr
  | [] => []
  | c :: cs =>
    match rtrim cs with
    | [] => if isWs c then [] else [c]
    | r :: rs => c :: r :: rs

/-- Model of `String.prototype.trim`. -/
def jsTrim (l : JStr) : JStr := rtrim (ltrim l)

/-- Case-insensitive match of one character against its lower/upper forms. -/
def ciEq (c lo hi : Char) : Bool := c = lo || c = hi

/-- Hand-compiled form of the regex test `/^https?:\/\//i` at the head of a
string (no leading whitespace allowed). -/
def httpSchemeAt : JStr → Bool
  | c1 :: c2 :: c3 :: c4 :: rest =>
    ciEq c1 'h' 'H' && ciEq c2 't' 'T' && ciEq c3 't' 'T' && ciEq c4 'p' 'P' &&
    (match rest with
     | ':' :: '/' :: '/' :: _ => true
     | c5 :: ':' :: '/' :: '/' :: _ => ciEq c5 's' 'S'
     | _ => false)
  | _ => false

/-- The regex test `/^\s*https?:\/\//i` (leading whitespace allowed), used by
`normalizeUrl` (app.js) and `absolutize` (worker.js). -/
def reHttpWs (l : JStr) : Bool := httpSchemeAt (ltrim l)

/-- The regex test `/^https?:\/\//i` without `\s*`, used by the node filters
in `chooseUpstreamProxy` and `chooseUpstream` (worker.js). -/
def reHttp (l : JStr) : Bool := httpSchemeAt l

/-- `normalizeUrl` from app.js:

```js
function normalizeUrl(u){
  if(!u) return "";
  if(!/^\s*https?:\/\//i.test(u)) return "http://" + u.trim();
  return u.trim();
}
``` -/
def normalizeUrl (u : JStr) : JStr :=
  if u = [] then []
  else if reHttpWs u = false then "http://".toList ++ jsTrim u
  else jsTrim u

/-- The regex test `/:\d+$/` (ends with a colon followed by one or more
digits), from the node filter of `chooseUpstream` (worker.js). -/
def endsWithPort (l : JStr) : Bool :=
  let r := l.reverse
  let ds := r.takeWhile (fun c => c.isDigit)
  decide (ds ≠ []) && decide ((r.drop ds.length).head? = some ':')

/-- The regex test `/^([^:]+):(\d+)$/` from the normalisation step of
`chooseUpstream` (worker.js).  The captured split is necessarily at the
first colon since the first group excludes colons. -/
def hostPortShape (l : JStr) : Bool :=
  let pre := l.takeWhile (fun c => c ≠ ':')
  match l.drop pre.length with
  | ':' :: post => decide (pre ≠ []) && decide (post ≠ []) && post.all (fun c => c.isDigit)
  | _ => false

/-- The per-node normalisation inside `chooseUpstream` (worker.js):

```js
if (/^https?:\/\//i.test(p)) return p;
const m = p.match(/^([^:]+):(\d+)$/);
if (m) return "http://" + p;
return p;
``` -/
def upstreamNorm (p : JStr) : JStr :=
  if reHttp p then p
  else if hostPortShape p then "http://".toList ++ p
  else p

/-- Substring containment, modelling `String.prototype.includes`. -/
def hasSub (pat : JStr) : JStr → Bool
  | [] => pat.isEmpty
  | c :: rest => pat.isPrefixOf (c :: rest) || hasSub pat rest

/-- The candidate filter of `chooseUpstreamProxy` (worker.js):
`/^https?:\/\//i.test(n) && (n.includes(":") || n.includes("proxy") ||
n.includes("3128") || n.includes("8080") || n.includes("1080") ||
n.includes("proxy"))` (the duplicate "proxy" test is in the source). -/
def proxyTest (n : JStr) : Bool :=
  reHttp n &&
    (hasSub ":".toList n || hasSub "proxy".toList n || hasSub "3128".toList n ||
     hasSub "8080".toList n || hasSub "1080".toList n || hasSub "proxy".toList n)

/-- JS `a || b` where `a` is a nullable string and the empty string is falsy. -/
def jsOrS (a : Option JStr) (b : JStr) : JStr :=
  match a with
  | some s => if s = [] then b else s
  | none => b

/-- The JS sort comparator `(a, b) => a.dt - b.dt` as a boolean order. -/
def dtLe (a b : JStr × Nat) : Bool := a.2 ≤ b.2

/-- `chooseUpstreamProxy` from worker.js (first variant).  The concurrent
HEAD bench is modelled by `probe`: `probe p = some dt` means the probe
fulfilled after `dt` ms, `none` means it threw or timed out.  The stable JS
`sort((a,b)=>a.dt-b.dt)` is modelled by the stable `List.mergeSort`, and the
final `results[0].p` / `proxies[0]` accesses by `head?` (taken on lists the
source has already checked to be non-empty). -/
def chooseUpstreamProxy (probe : JStr → Option Nat) (nodes : List JStr) : Option JStr :=
  let proxies := nodes.filter proxyTest
  if proxies.isEmpty then none
  else
    let sample := proxies.take 12
    let results := sample.filterMap (fun p => (probe p).map (fun dt => (p, dt)))
    if results.isEmpty then proxies.head?
    else ((results.mergeSort dtLe).head?).map Prod.fst

/-- `chooseUpstream` from worker.js (second variant): filter to URL-shaped or
`host:port`-shaped entries, normalise, bench the first 12, fall back to the
first normalised entry when every probe fails. -/
def chooseUpstream (probe : JStr → Option Nat) (nodes : List JStr) : Option JStr :=
  let proxies := nodes.filter (fun n => reHttp n || endsWithPort n)
  if proxies.isEmpty then none
  else
    let normalized := proxies.map upstreamNorm
    let sample := normalized.take 12
    let results := sample.filterMap (fun p => (probe p).map (fun dt => (p, dt)))
    if results.isEmpty then normalized.head?
    else ((results.mergeSort dtLe).head?).map Prod.fst

/-- The body of the bench loop of `pickFastestNode` (app.js): keep the node
with the strictly smallest finite time seen so far (`Infinity`, i.e. a probe
failure, is never strictly smaller than anything). -/
def pickStep (probe : JStr → Option Nat) (acc : Option JStr × Option Nat) (n : JStr) :
    Option JStr × Option Nat :=
  match probe n with
  | none => acc
  | some dt =>
    match acc.2 with
    | none => (some n, some dt)
    | some bt => if dt < bt then (some n, some dt) else acc

/-- `pickFastestNode` from app.js.  `benchNode` returns the elapsed time or
`Infinity` on abort/error; `probe n = none` models the `Infinity` case.  The
function returns `best || nodes[0]` (JS `||`, so an empty-string best falls
through to `nodes[0]`). -/
def pickFastestNode (probe : JStr → Option Nat) (nodes : List JStr) : Option JStr :=
  match nodes with
  | [] => none
  | n0 :: _ =>
    let res := nodes.foldl (pickStep probe) (none, none)
    some (jsOrS res.1 n0)

/-- `String.prototype.split("\n")`. -/
def splitLines : JStr → List JStr
  | [] => [[]]
  | '\n' :: rest => [] :: splitLines rest
  | c :: rest =>
    match splitLines rest with
    | [] => [[c]]
    | h :: t => (c :: h) :: t

/-- One `[0-9]+` step of a regex match: consume one or more leading digits. -/
def eatDigits (l : JStr) : Option JStr :=
  let d := l.takeWhile (fun c => c.isDigit)
  if d = [] then none else some (l.drop d.length)

/-- One literal `.` step of a regex match. -/
def eatDot : JStr → Option JStr
  | '.' :: r => some r
  | _ => none

/-- The regex test `/^[0-9]+\.[0-9]+\.[0-9]+\.[0-9]+/` of `getBestNode`
(unanchored at the end: only a prefix match is required). -/
def ipPrefixTest (l : JStr) : Bool :=
  (((((((eatDigits l).bind eatDot).bind eatDigits).bind eatDot).bind
      eatDigits).bind eatDot).bind eatDigits).isSome

/-- The line filter of `getBestNode` (part_002): keep non-empty trimmed lines
that start with `http://`, `https://`, or an IPv4-looking prefix. -/
def nodeLineTest (x : JStr) : Bool :=
  decide (x ≠ []) &&
    ("http://".toList.isPrefixOf x || "https://".toList.isPrefixOf x || ipPrefixTest x)

/-- The body of the ping loop of `getBestNode` (part_002): a failed ping is
skipped (`catch { continue }`), a successful one is kept when strictly below
the best so far. -/
def bestStep (probe : JStr → Option Nat) (acc : Option JStr × Nat) (n : JStr) :
    Option JStr × Nat :=
  match probe n with
  | none => acc
  | some ping => if ping < acc.2 then (some n, ping) else acc

/-- `getBestNode` from part_002: parse the fetched list, filter node-like
lines, sequentially ping the first 10 keeping the strictly best ping below
the initial sentinel 999999, and return `best || ""`. -/
def getBestNode (probe : JStr → Option Nat) (fileText : JStr) : JStr :=
  let nodes := ((splitLines fileText).map jsTrim).filter nodeLineTest
  let sample := nodes.take 10
  let r := sample.foldl (bestStep probe) (none, 999999)
  jsOrS r.1 []

/-- `parseDnsText` from worker.js: split on newlines, trim, drop blank and
`#`-prefixed lines. -/
def parseDnsText (txt : JStr) : List JStr :=
  ((splitLines txt).map jsTrim).filter
    (fun l => decide (l ≠ []) && !("#".toList.isPrefixOf l))

/-- Outcome of the external node-list fetch when it does not throw. -/
structure FetchResp where
  ok : Bool
  text : JStr

/-- `loadDnsList` from worker.js.  The KV read (wrapped in try/catch in the
source, errors treated as a miss) is modelled by `cached`; the external
`fetch(DNS_RAW_URL)` is modelled by `fetchRes`, where `.error e` means the
fetch (which the source does NOT wrap in a try/catch) rejected, and `.ok r`
means it completed with `r.ok` as the HTTP ok-flag. -/
def loadDnsList (cached : Option JStr) (fetchRes : Except String FetchResp) :
    Except String (List JStr) :=
  match cached with
  | some c => .ok (parseDnsText c)
  | none =>
    match fetchRes with
    | .error e => .error e
    | .ok r => if r.ok then .ok (parseDnsText r.text) else .ok []

/-- `loadDnsList` from part_000, which never checks `r.ok` and parses
whatever body text the fetch produced. -/
def loadDnsListNoCheck (cached : Option JStr) (fetchRes : Except String FetchResp) :
    Except String (List JStr) :=
  match cached with
  | some c => .ok (parseDnsText c)
  | none =>
    match fetchRes with
    | .error e => .error e
    | .ok r => .ok (parseDnsText r.text)

/-- The regex test `/^\s*\/\//` (protocol-relative reference). -/
def protoRelWs (l : JStr) : Bool :=
  decide ((ltrim l).take 2 = ['/', '/'])

/-- The regex test `/^\s*\//` (root-relative or protocol-relative). -/
def rootRelWs (l : JStr) : Bool :=
  decide ((ltrim l).head? = some '/')

/-- `base.replace(/\/$/, '')`: drop one trailing slash if present. -/
def stripTrailingSlash (l : JStr) : JStr :=
  match l.getLast? with
  | some '/' => l.dropLast
  | _ => l

/-- `absolutize` from worker.js:

```js
function absolutize(u, base) {
  if (!u) return u;
  if (/^\s*https?:\/\//i.test(u)) return u;
  if (/^\s*\/\//.test(u)) return "http:" + u;
  if (/^\s*\//.test(u)) return base.replace(/\/$/,'') + u;
  return base.replace(/\/$/,'') + "/" + u;
}
``` -/
def absolutize (u base : JStr) : JStr :=
  if u = [] then u
  else if reHttpWs u then u
  else if protoRelWs u then "http:".toList ++ u
  else if rootRelWs u then stripTrailingSlash base ++ u
  else stripTrailingSlash base ++ '/' :: u

/-- Model of `new URL(x)` for the fragment the rewriter exercises: plain
`http://` / `https://` URLs with a lower-case scheme, a non-empty host and
no userinfo/query/fragment, returning `(origin, pathname)` with the JS
default pathname `/`.  Parse failure (no such prefix or empty host) is
`none`, matching the `try { new URL(base) } catch` fallback. -/
def parseHttpUrl (l : JStr) : Option (JStr × JStr) :=
  if "http://".toList.isPrefixOf l then
    let rest := l.drop 7
    let host := rest.takeWhile (fun c => c ≠ '/')
    if host = [] then none
    else some ("http://".toList ++ host,
               if rest.drop host.length = [] then ['/'] else rest.drop host.length)
  else if "https://".toList.isPrefixOf l then
    let rest := l.drop 8
    let host := rest.takeWhile (fun c => c ≠ '/')
    if host = [] then none
    else some ("https://".toList ++ host,
               if rest.drop host.length = [] then ['/'] else rest.drop host.length)
  else none

/-- `pathname.replace(/\/[^\/]*$/, '')`: drop from the last slash to the end
(the regex always matches when the pathname contains a slash). -/
def stripLastSeg (p : JStr) : JStr :=
  if p.contains '/' then ((p.reverse.dropWhile (fun c => c ≠ '/')).drop 1).reverse
  else p

/-- The rewrite base computed by `rewriteHtml` (worker.js) / `baseFor`
(app.js): `origin + pathname-without-last-segment`, falling back to the raw
target string when URL parsing fails. -/
def baseFor (target : JStr) : JStr :=
  match parseHttpUrl target with
  | some (o, p) => o ++ stripLastSeg p
  | none => target

/-- Resolution of one extracted reference `u` against the page target, as the
rewriter performs it: `absolutize(u, baseFor(target))`. -/
def rewriteResolve (target u : JStr) : JStr := absolutize u (baseFor target)

/-- A stored cache entry (status + body bytes), app.js. -/
structure CacheEntry where
  status : Nat
  body : List Nat
deriving DecidableEq

/-- `MAX_CACHE_BYTES = 1 * 1024 * 1024` from app.js. -/
def MAX_CACHE_BYTES : Nat := 1048576

/-- The edge cache, modelled as an association list keyed by the cache key. -/
abbrev Cache := List (String × CacheEntry)

/-- The cache key from app.js: `` `v5::${target}::${method}` ``. -/
def cacheKey (target method : String) : String :=
  "v5::" ++ target ++ "::" ++ method

/-- `cache.match(key)`. -/
def cacheMatch (c : Cache) (k : String) : Option CacheEntry :=
  (c.find? (fun p => p.1 == k)).map (fun p => p.2)

/-- `cache.put(key, resp)`: overwrite the entry for that key. -/
def cachePut (c : Cache) (k : String) (e : CacheEntry) : Cache :=
  (k, e) :: c.filter (fun p => !(p.1 == k))

/-- Substring containment on strings (`String.prototype.includes`). -/
def strIncludes (s pat : String) : Bool := hasSub pat.toList s.toList

/-- The upstream response reaching the cache logic of `handle` (app.js). -/
structure ProxiedResp where
  status : Nat
  contentType : String
  body : List Nat

/-- The observable output of `handle` relevant to caching: status, body and
the `X-Ultra-Proxy-Cache` marker. -/
structure HandleOut where
  status : Nat
  body : List Nat
  cacheMarker : String
deriving DecidableEq

/-- The cache-relevant core of `handle` (app.js): GET/HEAD lookups, the HTML
branch caching the re-encoded rewritten body and the binary branch caching
the raw buffer, both only for GET bodies of at most `MAX_CACHE_BYTES`.
`rewrittenBytes` stands for `new TextEncoder().encode(rewritten)` in the
HTML branch. -/
def handle (cache : Cache) (method target : String) (proxied : ProxiedResp)
    (rewrittenBytes : List Nat) : HandleOut × Cache :=
  let key := cacheKey target method
  let hit := if method == "GET" || method == "HEAD" then cacheMatch cache key else none
  match hit with
  | some e => ({ status := e.status, body := e.body, cacheMarker := "HIT" }, cache)
  | none =>
    if strIncludes proxied.contentType "text/html" then
      let enc := rewrittenBytes
      let cache2 :=
        if method == "GET" && enc.length ≤ MAX_CACHE_BYTES then
          cachePut cache key { status := proxied.status, body := enc }
        else cache
      ({ status := proxied.status, body := enc, cacheMarker := "MISS" }, cache2)
    else
      let buf := proxied.body
      let cache2 :=
        if method == "GET" && buf.length ≤ MAX_CACHE_BYTES then
          cachePut cache key { status := proxied.status, body := buf }
        else cache
      ({ status := proxied.status, body := buf, cacheMarker := "MISS" }, cache2)

/-- A response as produced by the top-level handlers (status + body text). -/
structure SimpleResp where
  status : Nat
  body : String
deriving DecidableEq

/-- The top-level `fetch` of worker.js (consolidated variant): the whole
proxy pipeline — node-list load, upstream choice, forward — runs inside a
single try whose catch returns `502` with `"bepichon error: " + String(err)`.
The pipeline stages are modelled as `Except`-valued oracles; `forward`
receives the chosen upstream. -/
def workerFetch (loadRes : Except String (List JStr)) (probe : JStr → Option Nat)
    (forward : Option JStr → Except String SimpleResp) : SimpleResp :=
  let pipeline : Except String SimpleResp := do
    let nodes ← loadRes
    let upstream := chooseUpstreamProxy probe nodes
    let resp ← forward upstream
    pure resp
  match pipeline with
  | .ok r => r
  | .error e => { status := 502, body := "bepichon error: " ++ e }

/-- The top-level `fetch` of part_002: its try covers `getBestNode` and the
forward, but its catch returns status `500` with `"Proxy Error:\n" +
e.toString()`. -/
def part2Fetch (getBestRes : Except String JStr)
    (forward : JStr → Except String SimpleResp) : SimpleResp :=
  let pipeline : Except String SimpleResp := do
    let node ← getBestRes
    let resp ← forward node
    pure resp
  match pipeline with
  | .ok r => r
  | .error e => { status := 500, body := "Proxy Error:\n" ++ e }

/-- A JSON value as produced by `JSON.parse`. -/
inductive JsValue where
  | jnull
  | jbool (b : Bool)
  | jnum (n : Int)
  | jstr (s : String)
  | jarr (elems : List JsValue)
  | jobj (fields : List (String × JsValue))

/-- JS truthiness of a parsed JSON value. -/
def truthy : JsValue → Bool
  | .jnull => false
  | .jbool b => b
  | .jnum n => decide (n ≠ 0)
  | .jstr s => decide (s ≠ "")
  | .jarr _ => true
  | .jobj _ => true

/-- Property access `v[k]`: `some` for an object field, otherwise
`undefined` (`none`). -/
def getField : JsValue → String → Option JsValue
  | .jobj fs, k => ((fs.find? (fun p => p.1 == k)).map (fun p => p.2))
  | _, _ => none

/-- Truthiness of `v[k]` (`undefined` is falsy). -/
def fieldTruthy (v : JsValue) (k : String) : Bool :=
  match getField v k with
  | some f => truthy f
  | none => false

/-- The strict comparison `v[k] === s` for a string literal `s`. -/
def fieldIsStr (v : JsValue) (k s : String) : Bool :=
  match getField v k with
  | some (.jstr t) => t == s
  | _ => false

/-- `v[k]` read as the URL string handed to fetch (non-string values would be
coerced by JS; the claims only exercise string URLs). -/
def fieldStr (v : JsValue) (k : String) : String :=
  match getField v k with
  | some (.jstr t) => t
  | _ => ""

/-- One WebSocket message event: `ev.data` is either binary (not a string)
or text carrying its `JSON.parse` outcome (`none` models a parse throw). -/
inductive WsData where
  | binary
  | text (raw : String) (parsed : Option JsValue)

/-- The outcome of the tunnel's outbound fetch when it does not throw. -/
structure FetchOut where
  status : Nat
  bodyB64 : String
deriving DecidableEq

/-- A reply the tunnel handler sends back on the socket. -/
inductive TunnelReply where
  | response (status : Nat) (bodyB64 : String)
  | errorReply (message : String)
  | unknownReply
deriving DecidableEq

/-- The message handler installed by `handleTunnel` (worker.js):

```js
try {
  const msg = typeof ev.data === "string" ? JSON.parse(ev.data) : null;
  if (!msg) return;
  if (msg.cmd === "fetch" && msg.url) {
    try { ... server.send({type:"response", ...}) }
    catch(e) { server.send({type:"error", message:String(e)}) }
  } else {
    server.send({type:"unknown", msg:"unsupported"});
  }
} catch(e){}
```

The returned value is the reply sent on the socket, `none` when the handler
returns without sending (the handler never closes the socket). -/
def tunnelOnMessage (doFetch : String → Except String FetchOut) : WsData → Option TunnelReply
  | .binary => none
  | .text _ none => none
  | .text _ (some v) =>
    if truthy v = false then none
    else if fieldIsStr v "cmd" "fetch" && fieldTruthy v "url" then
      match doFetch (fieldStr v "url") with
      | .ok r => some (.response r.status r.bodyB64)
      | .error e => some (.errorReply e)
    else some .unknownReply

/-- The message handler installed by `handleTunnel` in part_000, which has
no `else` branch and no truthiness guard:

```js
try {
  const msg = JSON.parse(ev.data);
  if (msg.cmd === "fetch" && msg.url) {
    try { ... server.send(JSON.stringify({type:"response", ...})) }
    catch(e) { server.send(JSON.stringify({type:"error", message:String(e)})) }
  }
} catch{}
```

A non-string `ev.data` makes `JSON.parse` throw after string coercion, and a
falsy parse result makes the `msg.cmd` access throw; both are swallowed by
the empty outer catch, so nothing is sent (`none`) — exactly as for a parsed
message whose command is not a recognised fetch command, which simply falls
off the end of the `if` with no reply. -/
def tunnelOnMessageP0 (doFetch : String → Except String FetchOut) : WsData → Option TunnelReply
  | .binary => none
  | .text _ none => none
  | .text _ (some v) =>
    if fieldIsStr v "cmd" "fetch" && fieldTruthy v "url" then
      match doFetch (fieldStr v "url") with
      | .ok r => some (.response r.status r.bodyB64)
      | .error e => some (.errorReply e)
    else none

/-- A header list; the Headers API keeps names lower-cased and unique. -/
abbrev HdrList := List (JStr × JStr)

/-- `k.toLowerCase()`. -/
def lowerS (l : JStr) : JStr := l.map Char.toLower

/-- `Headers.prototype.set`: replace the value under the lower-cased name, or
append it. -/
def hSet (hs : HdrList) (k v : JStr) : HdrList :=
  let lk := lowerS k
  if hs.any (fun p => decide (p.1 = lk)) then
    hs.map (fun p => if p.1 = lk then (lk, v) else p)
  else hs ++ [(lk, v)]

/-- `Headers.prototype.has`. -/
def hHas (hs : HdrList) (k : JStr) : Bool :=
  hs.any (fun p => decide (p.1 = lowerS k))

/-- The removal set of `filterRequestHeaders` (worker.js) and `proxyFetch`
(app.js). -/
def removalSet : List JStr :=
  ["host".toList, "connection".toList, "content-length".toList,
   "upgrade-insecure-requests".toList]

/-- `filterRequestHeaders` from worker.js: copy every inbound header whose
lower-cased name is outside `removalSet`, then default the user-agent. -/
def filterRequestHeaders (inH : HdrList) : HdrList :=
  let out := inH.foldl
    (fun acc p => if removalSet.contains (lowerS p.1) then acc else hSet acc p.1 p.2)
    []
  if hHas out "user-agent".toList then out
  else hSet out "user-agent".toList "bepichon/1.0".toList

/-- The removal set of `cleanHeaders` (part_002), which omits
`upgrade-insecure-requests`. -/
def cleanRemoval : List JStr :=
  ["host".toList, "content-length".toList, "connection".toList]

/-- `cleanHeaders` from part_002: copy headers outside its three-element
removal set; no default user-agent is added. -/
def cleanHeaders (inH : HdrList) : HdrList :=
  inH.foldl
    (fun acc p => if cleanRemoval.contains (lowerS p.1) then acc else hSet acc p.1 p.2)
    []

end Proxy

namespace Proxy

theorem rtrim_cons (c : Char) (cs : JStr) :
    rtrim (c :: cs) =
      match rtrim cs with
      | [] => if isWs c then [] else [c]
      | r :: rs => c :: r :: rs := rfl

theorem rtrim_append (a b : JStr) (ha : ∀ c, a.getLast? = some c → isWs c = false) :
    rtrim (a ++ b) = a ++ rtrim b := by
  induction a with
  | nil => simp
  | cons c a' ih =>
    cases a' with
    | nil =>
      have hc : isWs c = false := ha c rfl
      show rtrim (c :: b) = c :: rtrim b
      rw [rtrim_cons]
      cases hb : rtrim b with
      | nil => simp [hc]
      | cons r rs => simp
    | cons x a'' =>
      have ha' : ∀ c', (x :: a'').getLast? = some c' → isWs c' = false := by
        intro c' h
        exact ha c' (by rw [List.getLast?_cons_cons]; exact h)
      have ih' := ih ha'
      show rtrim (c :: ((x :: a'') ++ b)) = c :: ((x :: a'') ++ rtrim b)
      rw [rtrim_cons, ih']
      simp

theorem rtrim_eq_self (l : JStr) (h : ∀ c, l.getLast? = some c → isWs c = false) :
    rtrim l = l := by
  have := rtrim_append l [] h
  simpa [rtrim] using this

theorem rtrim_getLast? (l : JStr) :
    ∀ c, (rtrim l).getLast? = some c → isWs c = false := by
  induction l with
  | nil => intro c h; simp [rtrim] at h
  | cons x xs ih =>
    intro c h
    rw [rtrim_cons] at h
    cases hx : rtrim xs with
    | nil =>
      rw [hx] at h
      cases hw : isWs x with
      | true => simp [hw] at h
      | false =>
        simp [hw] at h
        rw [← h]
        exact hw
    | cons r rs =>
      rw [hx] at h
      rw [List.getLast?_cons_cons] at h
      exact ih c (hx ▸ h)

theorem rtrim_cons_ne_nil (c : Char) (cs : JStr) (hc : isWs c = false) :
    rtrim (c :: cs) ≠ [] := by
  rw [rtrim_cons]
  cases rtrim cs <;> simp [hc]

theorem rtrim_head? (l : JStr) (h : rtrim l ≠ []) : (rtrim l).head? = l.head? := by
  cases l with
  | nil => simp [rtrim] at h
  | cons c cs =>
    rw [rtrim_cons] at h ⊢
    cases hx : rtrim cs with
    | nil =>
      rw [hx] at h
      cases hw : isWs c with
      | true => rw [hw] at h; simp at h
      | false => simp [hw]
    | cons r rs => simp

theorem ltrim_head? (l : JStr) :
    ∀ c, (ltrim l).head? = some c → isWs c = false := by
  induction l with
  | nil => intro c h; simp [ltrim] at h
  | cons x xs ih =>
    intro c h
    rw [ltrim, List.dropWhile_cons] at h
    cases hw : isWs x with
    | true => rw [hw] at h; simp at h; exact ih c h
    | false =>
      rw [hw] at h
      simp at h
      rw [← h]
      exact hw

theorem ltrim_eq_self (l : JStr) (h : ∀ c, l.head? = some c → isWs c = false) :
    ltrim l = l := by
  cases l with
  | nil => rfl
  | cons x xs =>
    have := h x rfl
    simp [ltrim, List.dropWhile_cons, this]

theorem jsTrim_getLast? (l : JStr) :
    ∀ c, (jsTrim l).getLast? = some c → isWs c = false :=
  fun c h => rtrim_getLast? (ltrim l) c h

theorem jsTrim_idem (l : JStr) : jsTrim (jsTrim l) = jsTrim l := by
  unfold jsTrim
  by_cases hn : rtrim (ltrim l) = []
  · rw [hn]; rfl
  · have h1 : ltrim (rtrim (ltrim l)) = rtrim (ltrim l) := by
      apply ltrim_eq_self
      intro c hc
      rw [rtrim_head? _ hn] at hc
      exact ltrim_head? l c hc
    rw [h1]
    exact rtrim_eq_self _ (rtrim_getLast? (ltrim l))

theorem httpSchemeAt_shape (l : JStr) (h : httpSchemeAt l = true) :
    ∃ c t', l = c :: t' ∧ isWs c = false := by
  match l, h with
  | c1 :: c2 :: c3 :: c4 :: rest, h =>
    refine ⟨c1, c2 :: c3 :: c4 :: rest, rfl, ?_⟩
    simp only [httpSchemeAt, Bool.and_eq_true] at h
    have hc1 : ciEq c1 'h' 'H' = true := h.1.1.1.1
    rw [ciEq, Bool.or_eq_true] at hc1
    rcases hc1 with h1 | h1 <;> simp at h1 <;> subst h1 <;> decide

theorem httpSchemeAt_rtrim (m : JStr) (h : httpSchemeAt m = true) :
    httpSchemeAt (rtrim m) = true := by
  rcases m with _ | ⟨c1, _ | ⟨c2, _ | ⟨c3, _ | ⟨c4, rest⟩⟩⟩⟩
  · simp [httpSchemeAt] at h
  · simp [httpSchemeAt] at h
  · simp [httpSchemeAt] at h
  · simp [httpSchemeAt] at h
  · simp only [httpSchemeAt, Bool.and_eq_true] at h
    obtain ⟨⟨⟨⟨g1, g2⟩, g3⟩, g4⟩, hrest⟩ := h
    split at hrest
    next tail =>
      have e : c1 :: c2 :: c3 :: c4 :: ':' :: '/' :: '/' :: tail
          = [c1, c2, c3, c4, ':', '/', '/'] ++ tail := rfl
      rw [e, rtrim_append]
      · simp [httpSchemeAt, g1, g2, g3, g4]
      · intro c hc
        simp at hc
        subst hc
        decide
    next c5 tail =>
      have g5 : ciEq c5 's' 'S' = true := hrest
      have e : c1 :: c2 :: c3 :: c4 :: c5 :: ':' :: '/' :: '/' :: tail
          = [c1, c2, c3, c4, c5, ':', '/', '/'] ++ tail := rfl
      rw [e, rtrim_append]
      · simp [httpSchemeAt, g1, g2, g3, g4, g5]
      · intro c hc
        simp at hc
        subst hc
        decide
    next => simp at hrest

theorem normalizeUrl_of_scheme (x : JStr) (hne : x ≠ []) (hsch : reHttpWs x = true) :
    normalizeUrl x = jsTrim x := by
  simp [normalizeUrl, hne, hsch]

/-- Claim C9: target/node normalisation is idempotent, both for
`normalizeUrl` (app.js) and for the per-node normalisation step inside
`chooseUpstream` (worker.js). -/
theorem normalize_idempotent (u : JStr) :
    normalizeUrl (normalizeUrl u) = normalizeUrl u ∧
    upstreamNorm (upstreamNorm u) = upstreamNorm u := by
  constructor
  · by_cases h0 : u = []
    · subst h0; rfl
    cases hre : reHttpWs u with
    | false =>
      have hval : normalizeUrl u = "http://".toList ++ jsTrim u := by
        simp [normalizeUrl, h0, hre]
      rw [hval]
      have hlt : ltrim ("http://".toList ++ jsTrim u) = "http://".toList ++ jsTrim u := by
        apply ltrim_eq_self
        intro c hc
        simp at hc
        subst hc
        decide
      have hsch : reHttpWs ("http://".toList ++ jsTrim u) = true := by
        rw [reHttpWs, hlt]
        rfl
      have hne : ("http://".toList ++ jsTrim u : JStr) ≠ [] := by simp
      rw [normalizeUrl_of_scheme _ hne hsch]
      calc jsTrim ("http://".toList ++ jsTrim u)
          = rtrim (ltrim ("http://".toList ++ jsTrim u)) := rfl
        _ = rtrim ("http://".toList ++ jsTrim u) := by rw [hlt]
        _ = "http://".toList ++ rtrim (jsTrim u) := by
            apply rtrim_append
            intro c hc
            simp at hc
            subst hc
            decide
        _ = "http://".toList ++ jsTrim u := by
            rw [rtrim_eq_self _ (jsTrim_getLast? u)]
    | true =>
      have hval : normalizeUrl u = jsTrim u := by
        simp [normalizeUrl, h0, hre]
      rw [hval]
      have hm : httpSchemeAt (ltrim u) = true := hre
      obtain ⟨c, t', hshape, hcws⟩ := httpSchemeAt_shape _ hm
      have hne : jsTrim u ≠ [] := by
        rw [jsTrim, hshape]
        exact rtrim_cons_ne_nil c t' hcws
      have hsch : reHttpWs (jsTrim u) = true := by
        rw [reHttpWs]
        have hlt : ltrim (jsTrim u) = jsTrim u := by
          apply ltrim_eq_self
          intro c' hc'
          rw [jsTrim] at hc'
          rw [rtrim_head? _ (by rw [jsTrim] at hne; exact hne)] at hc'
          exact ltrim_head? u c' hc'
        rw [hlt, jsTrim]
        exact httpSchemeAt_rtrim _ hm
      rw [normalizeUrl_of_scheme _ hne hsch]
      exact jsTrim_idem u
  · by_cases h1 : reHttp u = true
    · have e : upstreamNorm u = u := by simp [upstreamNorm, h1]
      rw [e, e]
    · by_cases h2 : hostPortShape u = true
      · have e : upstreamNorm u = "http://".toList ++ u := by
          simp [upstreamNorm, h1, h2]
        have hsch : reHttp ('h' :: 't' :: 't' :: 'p' :: ':' :: '/' :: '/' :: u) = true := rfl
        have e2 : upstreamNorm ("http://".toList ++ u) = "http://".toList ++ u := by
          show upstreamNorm ('h' :: 't' :: 't' :: 'p' :: ':' :: '/' :: '/' :: u)
              = 'h' :: 't' :: 't' :: 'p' :: ':' :: '/' :: '/' :: u
          simp [upstreamNorm, hsch]
        rw [e, e2]
      · have e : upstreamNorm u = u := by simp [upstreamNorm, h1, h2]
        rw [e, e]

end Proxy

namespace Proxy

theorem httpSchemeAt_head_ci (c : Char) (t : JStr) (h : httpSchemeAt (c :: t) = true) :
    ciEq c 'h' 'H' = true := by
  rcases t with _ | ⟨c2, _ | ⟨c3, _ | ⟨c4, rest⟩⟩⟩
  · simp [httpSchemeAt] at h
  · simp [httpSchemeAt] at h
  · simp [httpSchemeAt] at h
  · simp only [httpSchemeAt, Bool.and_eq_true] at h
    exact h.1.1.1.1

/-- Claim C3 (amended): a root-relative reference (leading `/`, not `//`) is
resolved by `absolutize` to the rewrite base (origin plus directory of the
target path, one trailing slash stripped) followed by the reference — not to
the bare origin; the spec's own example target `http://example.com/dir`
still resolves to `http://example.com/root.css` because that target's
directory component is empty. -/
theorem rootRelative_resolves_to_rewrite_base (u base : JStr)
    (h1 : u.head? = some '/') (h2 : u.take 2 ≠ ['/', '/']) :
    absolutize u base = stripTrailingSlash base ++ u ∧
    rewriteResolve "http://example.com/dir".toList "/root.css".toList
      = "http://example.com/root.css".toList := by
  constructor
  · rcases u with _ | ⟨c, u'⟩
    · simp at h1
    · have hc : c = '/' := by simpa using h1
      subst hc
      have hlt : ltrim ('/' :: u') = '/' :: u' := by
        apply ltrim_eq_self
        intro x hx
        simp at hx
        subst hx
        decide
      have hne : ('/' :: u' : JStr) ≠ [] := by simp
      have hre : reHttpWs ('/' :: u') = false := by
        rw [reHttpWs, hlt]
        cases hval : httpSchemeAt ('/' :: u') with
        | false => rfl
        | true =>
          have := httpSchemeAt_head_ci '/' u' hval
          simp [ciEq] at this
      have hproto : protoRelWs ('/' :: u') = false := by
        rw [protoRelWs, hlt]
        rcases u' with _ | ⟨d, u''⟩
        · simp
        · have hd : d ≠ '/' := by
            intro hdd
            subst hdd
            exact h2 rfl
          simp [List.take, hd]
      have hroot : rootRelWs ('/' :: u') = true := by
        rw [rootRelWs, hlt]
        simp
      simp [absolutize, hne, hre, hproto, hroot]
  · decide

/-- Claim C3 counterexample: for the target `http://example.com/a/b.html`
(origin `http://example.com`), the rewriter resolves `/root.css` to
`http://example.com/a/root.css`, keeping the directory `/a` — not to
origin + path as the claim states. -/
theorem rootRelative_directory_kept_cex :
    rewriteResolve "http://example.com/a/b.html".toList "/root.css".toList
      = "http://example.com/a/root.css".toList ∧
    (parseHttpUrl "http://example.com/a/b.html".toList).map Prod.fst
      = some "http://example.com".toList ∧
    "http://example.com/a/root.css".toList
      ≠ "http://example.com".toList ++ "/root.css".toList := by
  decide

theorem rootRelative_resolves_to_rewrite_base_witness :
    absolutize "/root.css".toList "http://x".toList
      = stripTrailingSlash "http://x".toList ++ "/root.css".toList ∧
    rewriteResolve "http://example.com/dir".toList "/root.css".toList
      = "http://example.com/root.css".toList :=
  rootRelative_resolves_to_rewrite_base "/root.css".toList "http://x".toList
    (by decide) (by decide)

/-- Claim C2 counterexample: when the KV cache misses and the external fetch
rejects (network error), `loadDnsList` propagates the exception instead of
returning the empty list — the `await fetch(DNS_RAW_URL)` is outside any
try/catch. -/
theorem loadDnsList_network_error_cex :
    loadDnsList none (Except.error "network failure") = Except.error "network failure" ∧
    loadDnsList none (Except.error "network failure")
      ≠ Except.ok ([] : List JStr) :=
  ⟨rfl, fun h => Except.noConfusion h⟩

/-- Claim C2 (amended): on a cache miss, a completed-but-non-ok external
response makes `loadDnsList` return the empty list, but a rejected fetch
propagates the error to the caller; the part_000 variant ignores the ok flag
entirely and parses whatever body the fetch produced. -/
theorem loadDnsList_failure_behavior (r : FetchResp) (e : String) :
    (r.ok = false → loadDnsList none (Except.ok r) = Except.ok []) ∧
    (loadDnsList none (Except.error e) = Except.error e) ∧
    (loadDnsListNoCheck none (Except.ok r) = Except.ok (parseDnsText r.text)) := by
  refine ⟨fun h => ?_, rfl, rfl⟩
  simp [loadDnsList, h]

theorem loadDnsList_failure_behavior_witness :
    loadDnsList none (Except.ok { ok := false, text := "oops".toList })
      = Except.ok ([] : List JStr) :=
  (loadDnsList_failure_behavior { ok := false, text := "oops".toList } "e").1 rfl

/-- Claim C5 counterexample: the part_002 variant's catch-all returns status
500 (with a "Proxy Error" body), not 502 as the claim states. -/
theorem part2_error_status_500_cex :
    part2Fetch (Except.error "TypeError: Failed to fetch")
        (fun _ => Except.ok ⟨200, "ok"⟩)
      = ⟨500, "Proxy Error:\nTypeError: Failed to fetch"⟩ ∧
    (500 : Nat) ≠ 502 := by
  refine ⟨rfl, ?_⟩
  decide

/-- Claim C5 (amended): the consolidated worker.js handler wraps the whole
pipeline in one catch-all producing a 502 whose body carries the error's
string form, and passes successful responses through; the part_002 variant
instead maps every caught failure to status 500. -/
theorem catchall_error_behavior (loadRes : Except String (List JStr))
    (probe : JStr → Option Nat) (forward : Option JStr → Except String SimpleResp)
    (e : String) :
    (loadRes = Except.error e →
      workerFetch loadRes probe forward = ⟨502, "bepichon error: " ++ e⟩) ∧
    (∀ nodes, loadRes = Except.ok nodes →
      forward (chooseUpstreamProxy probe nodes) = Except.error e →
      workerFetch loadRes probe forward = ⟨502, "bepichon error: " ++ e⟩) ∧
    (∀ nodes r, loadRes = Except.ok nodes →
      forward (chooseUpstreamProxy probe nodes) = Except.ok r →
      workerFetch loadRes probe forward = r) ∧
    (∀ (f2 : JStr → Except String SimpleResp) (g : Except String JStr),
      g = Except.error e → part2Fetch g f2 = ⟨500, "Proxy Error:\n" ++ e⟩) := by
  refine ⟨fun h => ?_, fun nodes h1 h2 => ?_, fun nodes r h1 h2 => ?_, fun f2 g h => ?_⟩
  · subst h; rfl
  · subst h1
    simp [workerFetch, Bind.bind, Except.bind, h2]
  · subst h1
    simp [workerFetch, Bind.bind, Except.bind, Pure.pure, Except.pure, h2]
  · subst h; rfl

theorem catchall_error_behavior_witness :
    workerFetch (Except.error "boom") (fun _ => none) (fun _ => Except.ok ⟨200, "hi"⟩)
      = ⟨502, "bepichon error: boom"⟩ :=
  (catchall_error_behavior (Except.error "boom") (fun _ => none)
    (fun _ => Except.ok ⟨200, "hi"⟩) "boom").1 rfl

/-- Claim C6 counterexample: a malformed tunnel message — binary data or
unparsable JSON text — is silently dropped (`if (!msg) return` and the empty
outer catch), not answered with an error/unknown reply; and in the part_000
handler even a well-formed message with an unrecognised command (here
`cmd:"ping"`) is silently dropped, since its `if` has no `else` branch. -/
theorem tunnel_malformed_silent_cex :
    tunnelOnMessage (fun _ => Except.error "fail") WsData.binary = none ∧
    tunnelOnMessage (fun _ => Except.error "fail") (WsData.text "this is not JSON" none)
      = none ∧
    tunnelOnMessageP0 (fun _ => Except.error "fail")
        (WsData.text "m" (some (JsValue.jobj [("cmd", JsValue.jstr "ping")])))
      = none :=
  ⟨rfl, rfl, rfl⟩

/-- Claim C6 (amended): in the worker.js handler a parsed, truthy JSON
message with an unrecognised command is answered with an `unknown` reply,
while the part_000 handler (no `else` branch) silently drops it; in both
handlers a recognised fetch command whose outbound fetch fails is answered
in-band with an `error` reply (the session is never closed by the handler),
and malformed messages (binary data, unparsable or falsy JSON) are silently
dropped, not answered. -/
theorem tunnel_reply_behavior (doFetch : String → Except String FetchOut)
    (raw : String) (v : JsValue) (e : String) :
    (truthy v = true →
      (fieldIsStr v "cmd" "fetch" && fieldTruthy v "url") = false →
      tunnelOnMessage doFetch (WsData.text raw (some v))
        = some TunnelReply.unknownReply) ∧
    (truthy v = true →
      (fieldIsStr v "cmd" "fetch" && fieldTruthy v "url") = true →
      doFetch (fieldStr v "url") = Except.error e →
      tunnelOnMessage doFetch (WsData.text raw (some v))
        = some (TunnelReply.errorReply e)) ∧
    ((fieldIsStr v "cmd" "fetch" && fieldTruthy v "url") = false →
      tunnelOnMessageP0 doFetch (WsData.text raw (some v)) = none) ∧
    ((fieldIsStr v "cmd" "fetch" && fieldTruthy v "url") = true →
      doFetch (fieldStr v "url") = Except.error e →
      tunnelOnMessageP0 doFetch (WsData.text raw (some v))
        = some (TunnelReply.errorReply e)) ∧
    (∀ f, tunnelOnMessage f WsData.binary = none ∧
      tunnelOnMessageP0 f WsData.binary = none) ∧
    (∀ f raw2, tunnelOnMessage f (WsData.text raw2 none) = none ∧
      tunnelOnMessageP0 f (WsData.text raw2 none) = none) := by
  refine ⟨fun h1 h2 => ?_, fun h1 h2 h3 => ?_, fun h2 => ?_, fun h2 h3 => ?_,
    fun f => ⟨rfl, rfl⟩, fun f raw2 => ⟨rfl, rfl⟩⟩
  · simp [tunnelOnMessage, h1, h2]
  · simp [tunnelOnMessage, h1, h2, h3]
  · simp [tunnelOnMessageP0, h2]
  · simp [tunnelOnMessageP0, h2, h3]

theorem tunnel_reply_behavior_witness :
    tunnelOnMessage (fun _ => Except.error "boom")
        (WsData.text "m" (some (JsValue.jobj [("cmd", JsValue.jstr "ping")])))
      = some TunnelReply.unknownReply ∧
    tunnelOnMessage (fun _ => Except.error "boom")
        (WsData.text "m" (some (JsValue.jobj
          [("cmd", JsValue.jstr "fetch"), ("url", JsValue.jstr "http://x")])))
      = some (TunnelReply.errorReply "boom") ∧
    tunnelOnMessageP0 (fun _ => Except.error "boom")
        (WsData.text "m" (some (JsValue.jobj [("cmd", JsValue.jstr "ping")])))
      = none ∧
    tunnelOnMessageP0 (fun _ => Except.error "boom")
        (WsData.text "m" (some (JsValue.jobj
          [("cmd", JsValue.jstr "fetch"), ("url", JsValue.jstr "http://x")])))
      = some (TunnelReply.errorReply "boom") := by
  refine ⟨?_, ?_, ?_, ?_⟩
  · exact (tunnel_reply_behavior (fun _ => Except.error "boom") "m"
      (JsValue.jobj [("cmd", JsValue.jstr "ping")]) "boom").1 (by decide) (by decide)
  · exact (tunnel_reply_behavior (fun _ => Except.error "boom") "m"
      (JsValue.jobj [("cmd", JsValue.jstr "fetch"), ("url", JsValue.jstr "http://x")])
      "boom").2.1 (by decide) (by decide) rfl
  · exact (tunnel_reply_behavior (fun _ => Except.error "boom") "m"
      (JsValue.jobj [("cmd", JsValue.jstr "ping")]) "boom").2.2.1 (by decide)
  · exact (tunnel_reply_behavior (fun _ => Except.error "boom") "m"
      (JsValue.jobj [("cmd", JsValue.jstr "fetch"), ("url", JsValue.jstr "http://x")])
      "boom").2.2.2.1 (by decide) rfl


theorem dtLe_trans : ∀ a b c : JStr × Nat, dtLe a b = true → dtLe b c = true → dtLe a c = true := by
  intro a b c h1 h2
  simp [dtLe] at h1 h2 ⊢
  omega

theorem dtLe_total : ∀ a b : JStr × Nat, (dtLe a b || dtLe b a) = true := by
  intro a b
  simp [dtLe]
  omega

theorem mergeSort_head_min (l : List (JStr × Nat)) (hl : l ≠ []) :
    ∃ r, (l.mergeSort dtLe).head? = some r ∧ r ∈ l ∧ ∀ q ∈ l, r.2 ≤ q.2 := by
  have hperm := List.mergeSort_perm l dtLe
  have hsorted := List.sorted_mergeSort dtLe_trans dtLe_total l
  cases hs : l.mergeSort dtLe with
  | nil =>
    rw [hs] at hperm
    have : l = [] := hperm.symm.eq_nil
    exact absurd this hl
  | cons r rs =>
    rw [hs] at hperm hsorted
    refine ⟨r, rfl, hperm.mem_iff.mp (List.mem_cons_self r rs), ?_⟩
    intro q hq
    have hq2 : q ∈ r :: rs := hperm.mem_iff.mpr hq
    rcases List.mem_cons.mp hq2 with he | hm
    · subst he
      exact Nat.le_refl _
    · have := List.rel_of_pairwise_cons hsorted hm
      simpa [dtLe] using this

theorem pickStep_foldl_fail (probe : JStr → Option Nat) (l : List JStr)
    (acc : Option JStr × Option Nat) (h : ∀ n ∈ l, probe n = none) :
    l.foldl (pickStep probe) acc = acc := by
  induction l generalizing acc with
  | nil => rfl
  | cons n l2 ih =>
    have hn := h n (List.mem_cons_self n l2)
    simp only [List.foldl_cons, pickStep, hn]
    exact ih acc (fun m hm => h m (List.mem_cons_of_mem n hm))

theorem bestStep_foldl_fail (probe : JStr → Option Nat) (l : List JStr)
    (acc : Option JStr × Nat) (h : ∀ n ∈ l, probe n = none) :
    l.foldl (bestStep probe) acc = acc := by
  induction l generalizing acc with
  | nil => rfl
  | cons n l2 ih =>
    have hn := h n (List.mem_cons_self n l2)
    simp only [List.foldl_cons, bestStep, hn]
    exact ih acc (fun m hm => h m (List.mem_cons_of_mem n hm))

theorem pickStep_foldl_some (probe : JStr → Option Nat) (l : List JStr) (b : JStr) (t : Nat) :
    ∃ b2 t2, l.foldl (pickStep probe) (some b, some t) = (some b2, some t2) ∧
      t2 ≤ t ∧ ((b2 = b ∧ t2 = t) ∨ (b2 ∈ l ∧ probe b2 = some t2)) ∧
      ∀ m ∈ l, ∀ d, probe m = some d → t2 ≤ d := by
  induction l generalizing b t with
  | nil => exact ⟨b, t, rfl, Nat.le_refl t, Or.inl ⟨rfl, rfl⟩, by simp⟩
  | cons n l2 ih =>
    cases hn : probe n with
    | none =>
      obtain ⟨b2, t2, hfold, hle, hmem, hmin⟩ := ih b t
      refine ⟨b2, t2, ?_, hle, ?_, ?_⟩
      · simp only [List.foldl_cons, pickStep, hn]
        exact hfold
      · rcases hmem with h1 | ⟨hm, hp⟩
        · exact Or.inl h1
        · exact Or.inr ⟨List.mem_cons_of_mem n hm, hp⟩
      · intro m hm d hd
        rcases List.mem_cons.mp hm with he | hm2
        · subst he
          rw [hn] at hd
          cases hd
        · exact hmin m hm2 d hd
    | some dt =>
      by_cases hlt : dt < t
      · obtain ⟨b2, t2, hfold, hle, hmem, hmin⟩ := ih n dt
        refine ⟨b2, t2, ?_, by omega, ?_, ?_⟩
        · simp only [List.foldl_cons, pickStep, hn, if_pos hlt]
          exact hfold
        · rcases hmem with ⟨hb, ht⟩ | ⟨hm, hp⟩
          · subst hb
            subst ht
            exact Or.inr ⟨List.mem_cons_self _ _, hn⟩
          · exact Or.inr ⟨List.mem_cons_of_mem n hm, hp⟩
        · intro m hm d hd
          rcases List.mem_cons.mp hm with he | hm2
          · subst he
            rw [hn] at hd
            injection hd with hdd
            omega
          · exact hmin m hm2 d hd
      · obtain ⟨b2, t2, hfold, hle, hmem, hmin⟩ := ih b t
        refine ⟨b2, t2, ?_, hle, ?_, ?_⟩
        · simp only [List.foldl_cons, pickStep, hn, if_neg hlt]
          exact hfold
        · rcases hmem with h1 | ⟨hm, hp⟩
          · exact Or.inl h1
          · exact Or.inr ⟨List.mem_cons_of_mem n hm, hp⟩
        · intro m hm d hd
          rcases List.mem_cons.mp hm with he | hm2
          · subst he
            rw [hn] at hd
            injection hd with hdd
            omega
          · exact hmin m hm2 d hd

theorem pickStep_foldl_start (probe : JStr → Option Nat) (l : List JStr) :
    (l.foldl (pickStep probe) (none, none) = (none, none) ∧ ∀ n ∈ l, probe n = none) ∨
    (∃ b2 t2, l.foldl (pickStep probe) (none, none) = (some b2, some t2) ∧
      b2 ∈ l ∧ probe b2 = some t2 ∧ ∀ m ∈ l, ∀ d, probe m = some d → t2 ≤ d) := by
  induction l with
  | nil => exact Or.inl ⟨rfl, by simp⟩
  | cons n l2 ih =>
    cases hn : probe n with
    | none =>
      have hstep : List.foldl (pickStep probe) (none, none) (n :: l2)
          = List.foldl (pickStep probe) (none, none) l2 := by
        simp only [List.foldl_cons, pickStep, hn]
      rcases ih with ⟨hf, hall⟩ | ⟨b2, t2, hf, hm, hp, hmin⟩
      · refine Or.inl ⟨by rw [hstep]; exact hf, ?_⟩
        intro m hm
        rcases List.mem_cons.mp hm with he | hm2
        · subst he; exact hn
        · exact hall m hm2
      · refine Or.inr ⟨b2, t2, by rw [hstep]; exact hf, List.mem_cons_of_mem n hm, hp, ?_⟩
        intro m hm2 d hd
        rcases List.mem_cons.mp hm2 with he | hm3
        · subst he
          rw [hn] at hd
          cases hd
        · exact hmin m hm3 d hd
    | some dt =>
      obtain ⟨b2, t2, hfold, hle, hmem, hmin⟩ := pickStep_foldl_some probe l2 n dt
      right
      refine ⟨b2, t2, ?_, ?_, ?_, ?_⟩
      · simp only [List.foldl_cons, pickStep, hn]
        exact hfold
      · rcases hmem with ⟨hb, _⟩ | ⟨hm, _⟩
        · subst hb
          exact List.mem_cons_self _ _
        · exact List.mem_cons_of_mem n hm
      · rcases hmem with ⟨hb, ht⟩ | ⟨_, hp⟩
        · subst hb
          subst ht
          exact hn
        · exact hp
      · intro m hm d hd
        rcases List.mem_cons.mp hm with he | hm2
        · subst he
          rw [hn] at hd
          injection hd with hdd
          omega
        · exact hmin m hm2 d hd

theorem chooseUpstreamProxy_mem (probe : JStr → Option Nat) (nodes : List JStr) (r : JStr)
    (h : chooseUpstreamProxy probe nodes = some r) : r ∈ nodes.filter proxyTest := by
  simp only [chooseUpstreamProxy] at h
  by_cases hie : (nodes.filter proxyTest).isEmpty = true
  · rw [if_pos hie] at h
    cases h
  · rw [if_neg hie] at h
    by_cases hres : (((nodes.filter proxyTest).take 12).filterMap
        (fun p => (probe p).map fun dt => (p, dt))).isEmpty = true
    · rw [if_pos hres] at h
      cases hl : nodes.filter proxyTest with
      | nil => rw [hl] at h; cases h
      | cons x xs =>
        rw [hl] at h
        have hx : x = r := by simpa using h
        rw [← hx]
        exact List.mem_cons_self x xs
    · rw [if_neg hres] at h
      have hne : ((nodes.filter proxyTest).take 12).filterMap
          (fun p => (probe p).map fun dt => (p, dt)) ≠ [] := by
        simpa [List.isEmpty_iff] using hres
      obtain ⟨hd, hhd, hmem, _⟩ := mergeSort_head_min _ hne
      rw [hhd] at h
      simp at h
      obtain ⟨p, hpmem, hpeq⟩ := List.mem_filterMap.mp hmem
      obtain ⟨dt, hdt, hpair⟩ := Option.map_eq_some'.mp hpeq
      have hp1 : hd.1 = p := by rw [← hpair]
      rw [← h, hp1]
      exact List.take_subset 12 _ hpmem

theorem chooseUpstream_mem (probe : JStr → Option Nat) (nodes : List JStr) (r : JStr)
    (h : chooseUpstream probe nodes = some r) :
    r ∈ (nodes.filter (fun n => reHttp n || endsWithPort n)).map upstreamNorm := by
  simp only [chooseUpstream] at h
  by_cases hie : (nodes.filter (fun n => reHttp n || endsWithPort n)).isEmpty = true
  · rw [if_pos hie] at h
    cases h
  · rw [if_neg hie] at h
    by_cases hres : ((((nodes.filter (fun n => reHttp n || endsWithPort n)).map
        upstreamNorm).take 12).filterMap
        (fun p => (probe p).map fun dt => (p, dt))).isEmpty = true
    · rw [if_pos hres] at h
      cases hl : (nodes.filter (fun n => reHttp n || endsWithPort n)).map upstreamNorm with
      | nil => rw [hl] at h; cases h
      | cons x xs =>
        rw [hl] at h
        have hx : x = r := by simpa using h
        rw [← hx]
        exact List.mem_cons_self x xs
    · rw [if_neg hres] at h
      have hne : ((((nodes.filter (fun n => reHttp n || endsWithPort n)).map
          upstreamNorm).take 12).filterMap
          (fun p => (probe p).map fun dt => (p, dt))) ≠ [] := by
        simpa [List.isEmpty_iff] using hres
      obtain ⟨hd, hhd, hmem, _⟩ := mergeSort_head_min _ hne
      rw [hhd] at h
      simp at h
      obtain ⟨p, hpmem, hpeq⟩ := List.mem_filterMap.mp hmem
      obtain ⟨dt, hdt, hpair⟩ := Option.map_eq_some'.mp hpeq
      have hp1 : hd.1 = p := by rw [← hpair]
      rw [← h, hp1]
      exact List.take_subset 12 _ hpmem

theorem pickFastestNode_mem (probe : JStr → Option Nat) (nodes : List JStr) (r : JStr)
    (h : pickFastestNode probe nodes = some r) : r ∈ nodes := by
  cases nodes with
  | nil => cases h
  | cons n0 rest =>
    simp only [pickFastestNode] at h
    have hr : jsOrS (List.foldl (pickStep probe) (none, none) (n0 :: rest)).1 n0 = r := by
      injection h
    rcases pickStep_foldl_start probe (n0 :: rest) with ⟨hf, _⟩ | ⟨b2, t2, hf, hm, _, _⟩
    · rw [hf] at hr
      simp only [jsOrS] at hr
      rw [← hr]
      exact List.mem_cons_self n0 rest
    · rw [hf] at hr
      simp only [jsOrS] at hr
      by_cases hb : b2 = []
      · rw [if_pos hb] at hr
        rw [← hr]
        exact List.mem_cons_self n0 rest
      · rw [if_neg hb] at hr
        rw [← hr]
        exact hm

theorem chooseUpstreamProxy_isSome (probe : JStr → Option Nat) (nodes : List JStr)
    (hp : nodes.filter proxyTest ≠ []) :
    ∃ r, chooseUpstreamProxy probe nodes = some r := by
  simp only [chooseUpstreamProxy]
  rw [if_neg (show ¬((nodes.filter proxyTest).isEmpty = true) by
    simpa [List.isEmpty_iff] using hp)]
  by_cases hres : (((nodes.filter proxyTest).take 12).filterMap
      (fun p => (probe p).map fun dt => (p, dt))).isEmpty = true
  · rw [if_pos hres]
    cases hl : nodes.filter proxyTest with
    | nil => exact absurd hl hp
    | cons x xs => exact ⟨x, rfl⟩
  · rw [if_neg hres]
    have hne : ((nodes.filter proxyTest).take 12).filterMap
        (fun p => (probe p).map fun dt => (p, dt)) ≠ [] := by
      simpa [List.isEmpty_iff] using hres
    obtain ⟨hd, hhd, _, _⟩ := mergeSort_head_min _ hne
    rw [hhd]
    exact ⟨hd.1, rfl⟩

/-- Claim C1 (amended): `chooseUpstreamProxy` returns null exactly when its
filtered candidate list is empty and falls back to the first filtered
candidate when every sampled probe fails; `pickFastestNode` returns null
exactly when its node list is empty and falls back to the first node when
every probe fails; the `getBestNode` variant (part_002) instead returns the
empty string when every probe fails. -/
theorem upstream_pick_null_iff_and_fallback (probe : JStr → Option Nat) (nodes : List JStr)
    (fileText : JStr) :
    (chooseUpstreamProxy probe nodes = none ↔ nodes.filter proxyTest = []) ∧
    (nodes.filter proxyTest ≠ [] →
      (∀ p ∈ (nodes.filter proxyTest).take 12, probe p = none) →
      chooseUpstreamProxy probe nodes = (nodes.filter proxyTest).head?) ∧
    (pickFastestNode probe nodes = none ↔ nodes = []) ∧
    (nodes ≠ [] → (∀ n ∈ nodes, probe n = none) →
      pickFastestNode probe nodes = nodes.head?) ∧
    ((∀ n ∈ (((splitLines fileText).map jsTrim).filter nodeLineTest).take 10, probe n = none) →
      getBestNode probe fileText = []) := by
  refine ⟨?_, ?_, ?_, ?_, ?_⟩
  · constructor
    · intro hnone
      by_cases hp : nodes.filter proxyTest = []
      · exact hp
      · obtain ⟨r, hr⟩ := chooseUpstreamProxy_isSome probe nodes hp
        rw [hr] at hnone
        cases hnone
    · intro hp
      simp [chooseUpstreamProxy, hp]
  · intro hp hall
    have hres : ((nodes.filter proxyTest).take 12).filterMap
        (fun p => (probe p).map fun dt => (p, dt)) = [] := by
      rw [List.filterMap_eq_nil_iff]
      intro p hp2
      rw [hall p hp2]
      rfl
    simp only [chooseUpstreamProxy]
    rw [if_neg (show ¬((nodes.filter proxyTest).isEmpty = true) by
      simpa [List.isEmpty_iff] using hp)]
    rw [if_pos (show (((nodes.filter proxyTest).take 12).filterMap
        (fun p => (probe p).map fun dt => (p, dt))).isEmpty = true by
      rw [hres]; rfl)]
  · cases nodes with
    | nil => simp [pickFastestNode]
    | cons n0 rest => simp [pickFastestNode]
  · intro hne hall
    cases nodes with
    | nil => exact absurd rfl hne
    | cons n0 rest =>
      simp only [pickFastestNode]
      rw [pickStep_foldl_fail probe _ _ hall]
      rfl
  · intro hall
    simp only [getBestNode]
    rw [bestStep_foldl_fail probe _ _ hall]
    rfl

/-- Claim C1 counterexample: with one candidate `http://a` whose probe fails,
`getBestNode` returns the empty string, not the first filtered candidate
(and its filtered candidate list is non-empty). -/
theorem getBestNode_allprobe_fail_cex :
    getBestNode (fun _ => none) "http://a\n".toList = [] ∧
    (((splitLines "http://a\n".toList).map jsTrim).filter nodeLineTest
      = ["http://a".toList]) ∧
    ([] : JStr) ≠ "http://a".toList := by
  refine ⟨rfl, by decide, by decide⟩

theorem upstream_pick_null_iff_and_fallback_witness :
    chooseUpstreamProxy (fun _ => none) ["http://a".toList] = some "http://a".toList ∧
    pickFastestNode (fun _ => none) ["http://a".toList] = some "http://a".toList ∧
    getBestNode (fun _ => none) "x".toList = [] := by
  have h := upstream_pick_null_iff_and_fallback (fun _ => none) ["http://a".toList] "x".toList
  refine ⟨?_, ?_, ?_⟩
  · have h2 := h.2.1 (by decide) (fun p hp => rfl)
    rw [h2]
    decide
  · have h2 := h.2.2.2.1 (by decide) (fun n hn => rfl)
    rw [h2]
    decide
  · exact h.2.2.2.2 (fun n hn => rfl)

/-- Claim C10 counterexample: `pickFastestNode` on the list `["1.2.3.4:80"]`
(all probes failing) returns the raw element `1.2.3.4:80`, which is not the
http-scheme normalisation of any element of the input list (either
normalisation in the codebase prefixes `http://`). -/
theorem pickFastestNode_raw_element_cex :
    pickFastestNode (fun _ => none) ["1.2.3.4:80".toList] = some "1.2.3.4:80".toList ∧
    (∀ m ∈ (["1.2.3.4:80".toList] : List JStr),
      normalizeUrl m ≠ "1.2.3.4:80".toList ∧ upstreamNorm m ≠ "1.2.3.4:80".toList) := by
  refine ⟨by decide, by decide⟩

/-- Claim C10 (amended): the pickers never fabricate an endpoint —
`chooseUpstream` returns null or the normalisation of some input element,
while `chooseUpstreamProxy` (whose candidates are already scheme-prefixed,
hence fixed points of the normalisation) and `pickFastestNode` return null
or an element of the input list verbatim. -/
theorem upstream_no_fabrication :
    (∀ (probe : JStr → Option Nat) (nodes : List JStr) (r : JStr),
      chooseUpstream probe nodes = some r → ∃ m ∈ nodes, r = upstreamNorm m) ∧
    (∀ (probe : JStr → Option Nat) (nodes : List JStr) (r : JStr),
      chooseUpstreamProxy probe nodes = some r → r ∈ nodes ∧ upstreamNorm r = r) ∧
    (∀ (probe : JStr → Option Nat) (nodes : List JStr) (r : JStr),
      pickFastestNode probe nodes = some r → r ∈ nodes) := by
  refine ⟨?_, ?_, fun probe nodes r h => pickFastestNode_mem probe nodes r h⟩
  · intro probe nodes r h
    have hmem := chooseUpstream_mem probe nodes r h
    obtain ⟨m, hm, hnorm⟩ := List.mem_map.mp hmem
    exact ⟨m, (List.mem_filter.mp hm).1, hnorm.symm⟩
  · intro probe nodes r h
    have hmem := chooseUpstreamProxy_mem probe nodes r h
    have h2 := List.mem_filter.mp hmem
    refine ⟨h2.1, ?_⟩
    have h3 := h2.2
    simp only [proxyTest, Bool.and_eq_true] at h3
    simp [upstreamNorm, h3.1]

theorem upstream_no_fabrication_witness :
    ("http://a".toList : JStr) ∈ (["http://a".toList] : List JStr) ∧
    upstreamNorm "http://a".toList = "http://a".toList :=
  upstream_no_fabrication.2.1 (fun _ => none) ["http://a".toList] "http://a".toList
    (by decide)

/-- Claim C8: the latency prober ranks probed candidates by ascending elapsed
time with unreachable (failed/timed-out) nodes effectively last and ties
broken by original list order.  Concretely, for nodes A (100ms), B (timeout),
C (50ms) both `chooseUpstreamProxy` and `pickFastestNode` return C; for the
tie C (50ms), D (50ms) the earlier node C wins; and in general, whenever
some sampled probe succeeds, the node returned by `chooseUpstreamProxy` is a
successfully probed one of minimal elapsed time. -/
theorem latency_ranking (probe : JStr → Option Nat)
    (hA : probe "http://a".toList = some 100)
    (hB : probe "http://b".toList = none)
    (hC : probe "http://c".toList = some 50)
    (hD : probe "http://d".toList = some 50) :
    chooseUpstreamProxy probe ["http://a".toList, "http://b".toList, "http://c".toList]
      = some "http://c".toList ∧
    pickFastestNode probe ["http://a".toList, "http://b".toList, "http://c".toList]
      = some "http://c".toList ∧
    chooseUpstreamProxy probe ["http://c".toList, "http://d".toList]
      = some "http://c".toList ∧
    (∀ (q : JStr → Option Nat) (ns : List JStr) (r : JStr),
      chooseUpstreamProxy q ns = some r →
      (∃ p ∈ (ns.filter proxyTest).take 12, q p ≠ none) →
      ∃ dt, q r = some dt ∧
        ∀ p ∈ (ns.filter proxyTest).take 12, ∀ d, q p = some d → dt ≤ d) := by
  refine ⟨?_, ?_, ?_, ?_⟩
  · have hf : (["http://a".toList, "http://b".toList, "http://c".toList] :
        List JStr).filter proxyTest
        = ["http://a".toList, "http://b".toList, "http://c".toList] := by decide
    have htake : ((["http://a".toList, "http://b".toList, "http://c".toList] :
        List JStr).take 12)
        = ["http://a".toList, "http://b".toList, "http://c".toList] := by decide
    have hres : ((["http://a".toList, "http://b".toList, "http://c".toList] :
        List JStr).filterMap (fun p => (probe p).map fun dt => (p, dt)))
        = [("http://a".toList, 100), ("http://c".toList, 50)] := by
      simp only [List.filterMap_cons, List.filterMap_nil, hA, hB, hC,
        Option.map_some', Option.map_none']
    simp only [chooseUpstreamProxy, hf, htake, hres]
    rw [if_neg (by decide), if_neg (by decide)]
    obtain ⟨r, hr, hmem, hmin⟩ := mergeSort_head_min
      [("http://a".toList, 100), ("http://c".toList, 50)] (by decide)
    rw [hr]
    have hrc : r = ("http://c".toList, 50) := by
      simp only [List.mem_cons, List.mem_singleton, List.not_mem_nil, or_false] at hmem
      rcases hmem with h1 | h1
      · exfalso
        have := hmin ("http://c".toList, 50) (by simp)
        rw [h1] at this
        omega
      · exact h1
    rw [hrc]
    rfl
  · have hfold : List.foldl (pickStep probe) (none, none)
        ["http://a".toList, "http://b".toList, "http://c".toList]
        = (some "http://c".toList, some 50) := by
      simp only [List.foldl_cons, List.foldl_nil, pickStep, hA, hB, hC]
      norm_num
    simp only [pickFastestNode, hfold]
    decide
  · have hf : (["http://c".toList, "http://d".toList] : List JStr).filter proxyTest
        = ["http://c".toList, "http://d".toList] := by decide
    have htake : ((["http://c".toList, "http://d".toList] : List JStr).take 12)
        = ["http://c".toList, "http://d".toList] := by decide
    have hres : ((["http://c".toList, "http://d".toList] :
        List JStr).filterMap (fun p => (probe p).map fun dt => (p, dt)))
        = [("http://c".toList, 50), ("http://d".toList, 50)] := by
      simp only [List.filterMap_cons, List.filterMap_nil, hC, hD,
        Option.map_some', Option.map_none']
    simp only [chooseUpstreamProxy, hf, htake, hres]
    rw [if_neg (by decide), if_neg (by decide)]
    obtain ⟨l₁, l₂, hms, hrest, hl₁⟩ := List.mergeSort_cons dtLe_trans dtLe_total
      ("http://c".toList, 50) [("http://d".toList, 50)]
    rw [List.mergeSort_singleton] at hrest
    cases l₁ with
    | nil =>
      rw [hms]
      rfl
    | cons x l₁t =>
      exfalso
      have hx : x = ("http://d".toList, 50) := by
        cases l₁t with
        | nil => simpa using congrArg List.head? hrest.symm
        | cons y l₁tt => simp at hrest
      have := hl₁ x (List.mem_cons_self x l₁t)
      rw [hx] at this
      simp [dtLe] at this
  · intro q ns r hres hex
    obtain ⟨p0, hp0mem, hp0⟩ := hex
    have hne : ((ns.filter proxyTest).take 12).filterMap
        (fun p => (q p).map fun dt => (p, dt)) ≠ [] := by
      intro hnil
      have := (List.filterMap_eq_nil_iff.mp hnil) p0 hp0mem
      rw [Option.map_eq_none'] at this
      exact hp0 this
    have hp : ns.filter proxyTest ≠ [] := by
      intro hnil
      rw [hnil] at hp0mem
      simp at hp0mem
    simp only [chooseUpstreamProxy] at hres
    rw [if_neg (show ¬((ns.filter proxyTest).isEmpty = true) by
      simpa [List.isEmpty_iff] using hp)] at hres
    rw [if_neg (show ¬((((ns.filter proxyTest).take 12).filterMap
        (fun p => (q p).map fun dt => (p, dt))).isEmpty = true) by
      simpa [List.isEmpty_iff] using hne)] at hres
    obtain ⟨hd, hhd, hmem, hmin⟩ := mergeSort_head_min _ hne
    rw [hhd] at hres
    simp at hres
    obtain ⟨p, hpmem, hpeq⟩ := List.mem_filterMap.mp hmem
    obtain ⟨dt, hdt, hpair⟩ := Option.map_eq_some'.mp hpeq
    have hp1 : hd.1 = p := by rw [← hpair]
    have hp2 : hd.2 = dt := by rw [← hpair]
    refine ⟨hd.2, ?_, ?_⟩
    · rw [← hres, hp1, hp2]
      exact hdt
    · intro p' hp'mem d hd'
      have : (p', d) ∈ ((ns.filter proxyTest).take 12).filterMap
          (fun p => (q p).map fun dt => (p, dt)) := by
        apply List.mem_filterMap.mpr
        exact ⟨p', hp'mem, by rw [hd']; rfl⟩
      exact hmin (p', d) this

theorem latency_ranking_witness :
    chooseUpstreamProxy
        (fun s => if s = "http://a".toList then some 100
          else if s = "http://b".toList then none else some 50)
        ["http://a".toList, "http://b".toList, "http://c".toList]
      = some "http://c".toList ∧
    pickFastestNode
        (fun s => if s = "http://a".toList then some 100
          else if s = "http://b".toList then none else some 50)
        ["http://a".toList, "http://b".toList, "http://c".toList]
      = some "http://c".toList ∧
    chooseUpstreamProxy
        (fun s => if s = "http://a".toList then some 100
          else if s = "http://b".toList then none else some 50)
        ["http://c".toList, "http://d".toList]
      = some "http://c".toList := by
  have h := latency_ranking
    (fun s => if s = "http://a".toList then some 100
      else if s = "http://b".toList then none else some 50)
    (by decide) (by decide) (by decide) (by decide)
  exact ⟨h.1, h.2.1, h.2.2.1⟩

/-- Claim C4: the cache logic of `handle` (app.js) stores nothing for
non-GET methods or for bodies above `MAX_CACHE_BYTES`, never raises (it is a
total function), only ever stores GET bodies within the ceiling, and only
consults the cache for GET/HEAD (for other methods the response is
independent of the cache contents). -/
theorem cache_store_policy (cache : Cache) (method target : String) (pr : ProxiedResp)
    (rb : List Nat) :
    (method ≠ "GET" → (handle cache method target pr rb).2 = cache) ∧
    (method = "GET" →
      MAX_CACHE_BYTES <
        (if strIncludes pr.contentType "text/html" then rb.length else pr.body.length) →
      (handle cache method target pr rb).2 = cache) ∧
    ((handle cache method target pr rb).2 = cache ∨
      (method = "GET" ∧ ∃ stored : List Nat, stored.length ≤ MAX_CACHE_BYTES ∧
        (handle cache method target pr rb).2
          = cachePut cache (cacheKey target method) ⟨pr.status, stored⟩)) ∧
    (method ≠ "GET" → method ≠ "HEAD" →
      (handle cache method target pr rb).1 = (handle [] method target pr rb).1) := by
  have hnc : method ≠ "GET" → (handle cache method target pr rb).2 = cache := by
    intro h
    simp only [handle]
    split
    · rfl
    · split
      · split
        next hstore =>
          exfalso
          rw [Bool.and_eq_true] at hstore
          exact h (beq_iff_eq.mp hstore.1)
        next => rfl
      · split
        next hstore =>
          exfalso
          rw [Bool.and_eq_true] at hstore
          exact h (beq_iff_eq.mp hstore.1)
        next => rfl
  refine ⟨hnc, ?_, ?_, ?_⟩
  · intro hm hsize
    simp only [handle]
    split
    · rfl
    · split
      next hct =>
        rw [if_pos hct] at hsize
        split
        next hstore =>
          exfalso
          rw [Bool.and_eq_true] at hstore
          have h2 := of_decide_eq_true hstore.2
          omega
        next => rfl
      next hct =>
        rw [if_neg hct] at hsize
        split
        next hstore =>
          exfalso
          rw [Bool.and_eq_true] at hstore
          have h2 := of_decide_eq_true hstore.2
          omega
        next => rfl
  · by_cases hm : method = "GET"
    · subst hm
      simp only [handle]
      split
      · left
        rfl
      · split
        · split
          next hstore =>
            right
            rw [Bool.and_eq_true] at hstore
            exact ⟨by trivial, rb, of_decide_eq_true hstore.2, rfl⟩
          next => left; rfl
        · split
          next hstore =>
            right
            rw [Bool.and_eq_true] at hstore
            exact ⟨by trivial, pr.body, of_decide_eq_true hstore.2, rfl⟩
          next => left; rfl
    · exact Or.inl (hnc hm)
  · intro h1 h2
    have hcond : (method == "GET" || method == "HEAD") = false := by
      simp [Bool.or_eq_false_iff, beq_eq_false_iff_ne, h1, h2]
    simp only [handle, hcond, Bool.false_eq_true, if_false]
    split <;> rfl

theorem cache_store_policy_witness :
    (handle [] "POST" "http://t" ⟨200, "text/plain", [1, 2]⟩ []).2 = [] ∧
    (handle [] "GET" "http://t" ⟨200, "text/plain", List.replicate 1048577 0⟩ []).2
      = [] := by
  constructor
  · exact (cache_store_policy [] "POST" "http://t" ⟨200, "text/plain", [1, 2]⟩ []).1
      (by decide)
  · refine (cache_store_policy [] "GET" "http://t"
      ⟨200, "text/plain", List.replicate 1048577 0⟩ []).2.1 rfl ?_
    have hct : strIncludes "text/plain" "text/html" = false := by decide
    rw [if_neg (by simp [hct])]
    rw [List.length_replicate]
    decide

theorem hSet_append (acc : HdrList) (k v : JStr) (h : ∀ q ∈ acc, q.1 ≠ lowerS k) :
    hSet acc k v = acc ++ [(lowerS k, v)] := by
  have hany : acc.any (fun p => decide (p.1 = lowerS k)) = false := by
    rw [List.any_eq_false]
    intro p hp
    simp [h p hp]
  simp [hSet, hany]

theorem hdrFold_eq (l : HdrList) :
    ∀ acc : HdrList,
      (∀ p ∈ l, lowerS p.1 = p.1) →
      (l.map Prod.fst).Nodup →
      (∀ p ∈ l, ∀ q ∈ acc, q.1 ≠ p.1) →
      l.foldl (fun acc p =>
          if removalSet.contains (lowerS p.1) then acc else hSet acc p.1 p.2) acc
        = acc ++ l.filter (fun p => !(removalSet.contains p.1)) := by
  induction l with
  | nil => intro acc _ _ _; simp
  | cons p l2 ih =>
    intro acc hlc hnd hdisj
    have hp : lowerS p.1 = p.1 := hlc p (List.mem_cons_self p l2)
    rw [List.map_cons] at hnd
    have hndc := List.nodup_cons.mp hnd
    simp only [List.foldl_cons]
    by_cases hrem : removalSet.contains (lowerS p.1) = true
    · rw [if_pos hrem]
      rw [ih acc (fun q hq => hlc q (List.mem_cons_of_mem p hq)) hndc.2
        (fun q hq r hr => hdisj q (List.mem_cons_of_mem p hq) r hr)]
      rw [List.filter_cons]
      have hdrop : (!(removalSet.contains p.1)) = false := by
        rw [← hp, hrem]
        rfl
      rw [hdrop]
      simp
    · rw [if_neg hrem]
      rw [hSet_append acc p.1 p.2
        (fun q hq => by rw [hp]; exact hdisj p (List.mem_cons_self p l2) q hq)]
      rw [hp]
      rw [ih (acc ++ [(p.1, p.2)]) (fun q hq => hlc q (List.mem_cons_of_mem p hq)) hndc.2 ?_]
      · rw [List.filter_cons]
        have hfalse : removalSet.contains (lowerS p.1) = false := by
          cases hcc : removalSet.contains (lowerS p.1) with
          | false => rfl
          | true => exact absurd hcc hrem
        have hkeep : (!(removalSet.contains p.1)) = true := by
          rw [← hp, hfalse]
          rfl
        rw [hkeep]
        simp [List.append_assoc]
      · intro p2 hp2 q hq
        rcases List.mem_append.mp hq with hq1 | hq2
        · exact hdisj p2 (List.mem_cons_of_mem p hp2) q hq1
        · have hq3 : q = (p.1, p.2) := by simpa using hq2
          subst hq3
          intro heq
          exact hndc.1 (heq ▸ List.mem_map_of_mem Prod.fst hp2)

/-- Claim C7 (amended): worker.js's `filterRequestHeaders` keeps exactly the
inbound headers whose (lower-cased) name is outside the four-element removal
set, and adds the default user-agent `bepichon/1.0` precisely when the
inbound set has none; the part_002 variant `cleanHeaders` does not satisfy
the claim (it keeps `upgrade-insecure-requests` and adds no user-agent). -/
theorem filterRequestHeaders_spec (inH : HdrList)
    (hlc : ∀ p ∈ inH, lowerS p.1 = p.1)
    (hnd : (inH.map Prod.fst).Nodup) :
    ∀ k v, ((k, v) ∈ filterRequestHeaders inH ↔
      (((k, v) ∈ inH ∧ removalSet.contains k = false) ∨
       (k = "user-agent".toList ∧ v = "bepichon/1.0".toList ∧
         ∀ w, ("user-agent".toList, w) ∉ inH))) := by
  intro k v
  have hF := hdrFold_eq inH [] hlc hnd (by simp)
  simp only [filterRequestHeaders]
  rw [hF]
  simp only [List.nil_append]
  by_cases hua : hHas (inH.filter (fun p => !(removalSet.contains p.1)))
      "user-agent".toList = true
  · rw [if_pos hua]
    constructor
    · intro hmem
      have hm2 := List.mem_filter.mp hmem
      exact Or.inl ⟨hm2.1, by simpa using hm2.2⟩
    · intro hdisj
      rcases hdisj with ⟨hin, hrem⟩ | ⟨hk, hv, hnone⟩
      · exact List.mem_filter.mpr ⟨hin, by simpa using hrem⟩
      · exfalso
        rw [hHas, List.any_eq_true] at hua
        obtain ⟨q, hqF, hq⟩ := hua
        have hq1 : q.1 = "user-agent".toList := by
          have hl : lowerS "user-agent".toList = "user-agent".toList := by decide
          rw [hl] at hq
          simpa using hq
        have hqin := (List.mem_filter.mp hqF).1
        have : ("user-agent".toList, q.2) ∈ inH := by
          rw [← hq1]
          simpa using hqin
        exact hnone q.2 this
  · rw [if_neg hua]
    rw [hSet_append _ _ _ ?side]
    case side =>
      intro q hq heq
      apply hua
      rw [hHas, List.any_eq_true]
      exact ⟨q, hq, by simp [heq]⟩
    have hlua : lowerS "user-agent".toList = "user-agent".toList := by decide
    rw [hlua]
    rw [List.mem_append]
    constructor
    · intro hmem
      rcases hmem with hmF | hlast
      · have hm2 := List.mem_filter.mp hmF
        exact Or.inl ⟨hm2.1, by simpa using hm2.2⟩
      · have hkv : k = "user-agent".toList ∧ v = "bepichon/1.0".toList := by
          simpa using hlast
        refine Or.inr ⟨hkv.1, hkv.2, ?_⟩
        intro w hw
        apply hua
        rw [hHas, List.any_eq_true]
        refine ⟨("user-agent".toList, w),
          List.mem_filter.mpr ⟨hw,
            (by decide :
              (!(removalSet.contains ("user-agent".toList : JStr))) = true)⟩,
          (by decide :
            decide (("user-agent".toList : JStr)
              = lowerS ("user-agent".toList : JStr)) = true)⟩
    · intro hdisj
      rcases hdisj with ⟨hin, hrem⟩ | ⟨hk, hv, _⟩
      · exact Or.inl (List.mem_filter.mpr ⟨hin, by simpa using hrem⟩)
      · subst hk
        subst hv
        exact Or.inr (by simp)

/-- Claim C7 counterexample: `cleanHeaders` (part_002) keeps the
`upgrade-insecure-requests` header, which is in the claimed removal set, and
adds no default user-agent when the inbound set has none. -/
theorem cleanHeaders_keeps_uir_cex :
    cleanHeaders [("upgrade-insecure-requests".toList, "1".toList)]
      = [("upgrade-insecure-requests".toList, "1".toList)] ∧
    ("upgrade-insecure-requests".toList : JStr) ∈ removalSet ∧
    hHas (cleanHeaders []) "user-agent".toList = false := by
  refine ⟨by decide, by decide, by decide⟩

theorem filterRequestHeaders_spec_witness :
    (("accept".toList, "text/html".toList) ∈ filterRequestHeaders
      [("accept".toList, "text/html".toList), ("host".toList, "h".toList)]) ∧
    (("host".toList, "h".toList) ∉ filterRequestHeaders
      [("accept".toList, "text/html".toList), ("host".toList, "h".toList)]) ∧
    (("user-agent".toList, "bepichon/1.0".toList) ∈ filterRequestHeaders
      [("accept".toList, "text/html".toList), ("host".toList, "h".toList)]) := by
  have h := filterRequestHeaders_spec
    [("accept".toList, "text/html".toList), ("host".toList, "h".toList)]
    (by decide) (by decide)
  refine ⟨?_, ?_, ?_⟩
  · exact (h _ _).mpr (Or.inl ⟨by decide, by decide⟩)
  · intro hmem
    rcases (h _ _).mp hmem with ⟨_, hrem⟩ | ⟨hk, _, _⟩
    · revert hrem
      decide
    · revert hk
      decide
  · refine (h _ _).mpr (Or.inr ⟨rfl, rfl, ?_⟩)
    intro w hw
    rcases List.mem_cons.mp hw with heq | hw2
    · injection heq with h1 h2
      exact absurd h1 (by decide)
    · rcases List.mem_cons.mp hw2 with heq | hw3
      · injection heq with h1 h2
        exact absurd h1 (by decide)
      · simp at hw3

end Proxy
